import Mathlib

/-!
Shallow embedding of the iterative research workflow of
`develop/ai-tools/backend` (workflows/agents.py, utils/web_utils.py,
utils/cache_utils.py) and proofs about its specification.

Modelling conventions, used throughout:
* Python `int` is `Int`, Python `float` scores/thresholds are `ℚ`,
  wall-clock instants (`time.time()`) are `Int` parameters threaded
  explicitly into each cache operation.
* Python dict-based evidence records always carry the keys
  `title/link/url/snippet/summary` in the flows modelled here (they are
  built by `search_with_google_cse` or by the executor's placeholder
  branch), so those keys are plain `String` fields with `""` for the
  missing/empty value — faithful because Python `or` treats `None` and
  `""` identically in the expressions the code uses.  The citation key
  `n`, which is genuinely absent until assigned, is `Option Nat`.
* Every external call (Gemini completions, Google CSE HTTP call, RAG
  HTTP call, page fetch) is an oracle argument giving that call's
  outcome; exceptions become `Except`/sum cases.  Retry loops whose
  attempts are all equivalent are collapsed to the outcome of the
  final attempt, which is what determines the function's effect.
* Worker threads in the executor put records on a queue and are all
  joined before the queue is drained; the drain order is modelled as
  launch order (the properties proved here are insensitive to the
  interleaving).
-/

namespace ResearchSubsystem


/-- One web-evidence record (a Python dict built by
`search_with_google_cse`, by `expand_and_summarize_web`, or by the
executor's error placeholder). -/
structure WebRecord where
  title : String := ""
  link : String := ""
  url : String := ""
  snippet : String := ""
  summary : String := ""
  n : Option Nat := none
deriving Repr, DecidableEq

/-- Python `str.strip()`: drop whitespace from both ends.  (Implemented
on the character list so that it reduces inside the kernel.) -/
def pyStrip (s : String) : String :=
  ⟨((s.data.dropWhile Char.isWhitespace).reverse.dropWhile
      Char.isWhitespace).reverse⟩

/-- Python `str.lower()`. -/
def pyLower (s : String) : String :=
  ⟨s.data.map Char.toLower⟩

/-- Python `s.endswith(post)`. -/
def pyEndsWith (s post : String) : Bool :=
  post.data.isSuffixOf s.data

/-- Python `pat in s` (substring containment). -/
def hasSubChars (pat : List Char) : List Char → Bool
  | [] => pat.isEmpty
  | c :: rest => pat.isPrefixOf (c :: rest) || hasSubChars pat rest

/-- Python `pat in s` on strings. -/
def hasSub (pat s : String) : Bool :=
  hasSubChars pat.data s.data

/-- The deduplication key of a record:
`(r.get("link") or r.get("url") or "").strip()` in
`web_utils.dedupe_by_link`. -/
def recKey (r : WebRecord) : String :=
  pyStrip (if r.link ≠ "" then r.link else r.url)

/-- Worker loop of `web_utils.dedupe_by_link`, carrying the `seen` set
(modelled as the list of keys seen so far). -/
def dedupeGo (seen : List String) : List WebRecord → List WebRecord
  | [] => []
  | r :: rs =>
    let k := recKey r
    if k ≠ "" ∧ k ∉ seen then r :: dedupeGo (k :: seen) rs
    else dedupeGo seen rs

/-- Embedding of `web_utils.dedupe_by_link`: deduplicate a list of records by their
link/url key, keeping first occurrences, dropping records whose key is
empty. -/
def dedupe_by_link (items : List WebRecord) : List WebRecord :=
  dedupeGo [] items

/-- Embedding of `http_utils.is_probably_pdf` (the variant `expand_and_summarize_web`
imports): URL ends in `.pdf`, or the content type mentions `pdf`.  The
content type is the string `resp.headers.get("content-type", "")`; the
Python truthiness guard `if content_type and ...` is equivalent to the
bare substring test because `"pdf" in ""` is false. -/
def is_probably_pdf (url : String) (contentType : String) : Bool :=
  pyEndsWith (pyLower url) ".pdf" || hasSub "pdf" (pyLower contentType)

/-- Final outcome of a Gemini-call retry loop: the text of a successful
response, or the message of the exception that ended the loop (a
non-rate-limit error, or rate limiting on the last attempt). -/
inductive LLMOutcome where
  | ok (text : String)
  | err (msg : String)
deriving Repr, DecidableEq

/-- Outcome of the `fetch_url` call inside `expand_and_summarize_web`:
the call may raise (caught by the inner `except`, which falls back to the
snippet), return `None`, or return a response carrying a content type
and a body whose soup-extracted text is `pageText`. -/
inductive FetchOutcome where
  | raises (msg : String)
  | failed
  | resp (contentType : String) (pageText : String)
deriving Repr, DecidableEq

/-- Oracle for one `expand_and_summarize_web` call: the result of the
`is_allowed_url` allow-list check on the record's URL, the fetch
outcome, and the final outcome of the Gemini summarization retry
loop. -/
structure ExpandEnv where
  allowed : Bool
  fetch : FetchOutcome
  summarize : LLMOutcome
deriving Repr, DecidableEq

/-- The tail of `expand_and_summarize_web` (the Gemini summarization
retry loop followed by the `finally` queue put).  The success branch
sets `summary` and `title`; the failure branch sets only `summary`.
`title` is `link.get("title", link.get("displayLink", "Source"))`,
which in the executor flow is just the record's `title` field (the key
is always present there). -/
def summarizeStep (link : WebRecord) (title : String) (env : ExpandEnv) :
    List WebRecord :=
  match env.summarize with
  | .ok text => [{ link with summary := text, title := title }]
  | .err e => [{ link with summary := "Error: " ++ e }]

/-- Embedding of `web_utils.expand_and_summarize_web`, returning the records the
call puts on its queue, in order.  The early-return branches
(filtered/empty URL, failed fetch, PDF short-circuit) put the record
and then `return`, after which the `finally` block puts the same
(already mutated) record again — two queue entries.  The normal path
reaches the `finally` put only — one entry. -/
def expand_and_summarize_web (link : WebRecord) (env : ExpandEnv) :
    List WebRecord :=
  let url := if link.link ≠ "" then link.link else link.url
  if url = "" ∨ env.allowed = false then
    let r := { link with summary := "Filtered or invalid URL" }
    [r, r]
  else
    let title := link.title
    match env.fetch with
    | .failed =>
      let r := { link with summary := "Failed to fetch page.", title := title }
      [r, r]
    | .raises _ =>
      summarizeStep link title env
    | .resp ctype _ =>
      if is_probably_pdf url ctype then
        let r := { link with summary := "PDF detected; skipped parsing.", title := title }
        [r, r]
      else
        summarizeStep link title env

/-- The condition under which `expand_and_summarize_web` takes one of
its early-return branches (filtered/empty URL, `fetch_url` returned
`None`, or PDF short-circuit). -/
def expandEarlyReturn (link : WebRecord) (env : ExpandEnv) : Bool :=
  let url := if link.link ≠ "" then link.link else link.url
  decide (url = "") || !env.allowed ||
    (match env.fetch with
     | .failed => true
     | .raises _ => false
     | .resp ctype _ => is_probably_pdf url ctype)

/-- One item of the Google CSE JSON response (`data["items"]`), with the
defaults `item.get(key, "")` already applied. -/
structure SearchItem where
  title : String := ""
  link : String := ""
  snippet : String := ""
deriving Repr, DecidableEq

/-- Outcome of the HTTP round trip inside
`agents.search_with_google_cse`: the parsed item list, or the message
of the exception the function caught. -/
inductive SearchHttp where
  | ok (items : List SearchItem)
  | raises (msg : String)
deriving Repr, DecidableEq

/-- Embedding of `agents.search_with_google_cse`: build one record per item (with
`url` mirroring `link` for compatibility); any exception is caught and
logged, and the function returns the empty list. -/
def search_with_google_cse : SearchHttp → List WebRecord
  | .raises _ => []
  | .ok items => items.map fun it =>
      { title := it.title, link := it.link, url := it.link,
        snippet := it.snippet, summary := "", n := none }

/-- Embedding of `web_utils.allowed_url`: now a passthrough kept for backward
compatibility (Google CSE already filters domains). -/
def allowed_url (_ : String) : Bool := true

/-- What happens for one subquery inside the executor's `try` block:
either the whole block runs (the CSE search internally swallows any
exception of its own, so `search` never raises out of it and the
worker-launch loop completes), or the block raises at the
thread-creation/`t.start()` call for link number `started` — the only
way the `except` branch appending the placeholder record can run.  In
that case the workers for the first `started` links were already
launched; the code still joins them and drains their records. -/
inductive SubqSearch where
  | search (outcome : SearchHttp)
  | raisesAtLink (outcome : SearchHttp) (started : Nat) (msg : String)
deriving Repr, DecidableEq

/-- The synthetic placeholder the executor appends when its `try` block
raises: `{"title": subq, "link": "", "summary": f"Websearch error: {e}"}`. -/
def websearchErrorRecord (subq msg : String) : WebRecord :=
  { title := subq, link := "", summary := "Websearch error: " ++ msg }

/-- Launch one `expand_and_summarize_web` worker per link and drain the
queue after joining them (drain modelled in launch order); `envs i` is
the oracle for the worker on the i-th link. -/
def expandAll (envs : Nat → ExpandEnv) : List WebRecord → List WebRecord
  | [] => []
  | l :: rest =>
    expand_and_summarize_web l (envs 0) ++
      expandAll (fun i => envs (i + 1)) rest

/-- The links actually fanned out for one subquery:
`[l for l in links if allowed_url(l.get("link","") or
l.get("url",""))][:SUBQ_SEARCH_COUNT]` over the CSE results
(`agents.executor` lines 200-204). -/
def subqLinks (subqSearchCount : Nat) (outcome : SearchHttp) :
    List WebRecord :=
  ((search_with_google_cse outcome).filter fun l =>
    allowed_url (if l.link ≠ "" then l.link else l.url)).take subqSearchCount

/-- The records one subquery contributes to `aggregated` in
`agents.executor` lines 196-215.  When the `try` block raises while
launching the worker for link `started`, the placeholder is appended
first (in the `except` branch) and the already-launched workers for
links `0..started-1` are then joined and their queued records
drained. -/
def executorSubq (subqSearchCount : Nat) (subq : String) (so : SubqSearch)
    (envs : Nat → ExpandEnv) : List WebRecord :=
  match so with
  | .search outcome => expandAll envs (subqLinks subqSearchCount outcome)
  | .raisesAtLink outcome started msg =>
    websearchErrorRecord subq msg ::
      expandAll envs ((subqLinks subqSearchCount outcome).take started)

/-- The executor's `aggregated` list across all subqueries; `sos i` and
`envs i` are the oracles for the i-th subquery. -/
def executorAggregated (subqSearchCount : Nat) (sos : Nat → SubqSearch)
    (envs : Nat → Nat → ExpandEnv) : List String → List WebRecord
  | [] => []
  | s :: rest =>
    executorSubq subqSearchCount s (sos 0) (envs 0) ++
      executorAggregated subqSearchCount (fun i => sos (i + 1))
        (fun i => envs (i + 1)) rest

/-- The numbering loop of `agents.executor` lines 219-220: mutate
`r["n"] = i + 1` on the first `MAX_SOURCES_FOR_CITATIONS` records of the
deduplicated list, leaving the rest untouched. -/
def assignCitations (maxSources : Nat) (l : List WebRecord) : List WebRecord :=
  l.enum.map fun p =>
    if p.1 < maxSources then { p.2 with n := some (p.1 + 1) } else p.2

/-- The list `state.web_results` as the executor leaves it:
`dedupe_by_link(aggregated)` with `n = 1..k` assigned over the first
`MAX_SOURCES_FOR_CITATIONS` records. -/
def executorWebResults (subqSearchCount maxSources : Nat)
    (sos : Nat → SubqSearch) (envs : Nat → Nat → ExpandEnv)
    (subqs : List String) : List WebRecord :=
  assignCitations maxSources
    (dedupe_by_link (executorAggregated subqSearchCount sos envs subqs))

/-- Embedding of `models.langgraph_models.EvalRubric` (floats modelled as `ℚ`). -/
structure EvalRubric where
  coverage : ℚ := 0
  grounding : ℚ := 0
  coherence : ℚ := 0
  overall : ℚ := 0
  replan_needed : Bool := false
  critique : String := ""
deriving Repr, DecidableEq

/-- Embedding of `models.langgraph_models.QueryState`.  `answers` is an association
list in subquery order (the Python dict is keyed by subquery). -/
structure QueryState where
  question : String
  summary : String := ""
  subqueries : List String := []
  answers : List (String × String) := []
  final_answer : String := ""
  evaluation : String := ""
  evaluation_reason : String := ""
  feedback : String := ""
  previous_subqueries : List String := []
  bad_subqueries : List String := []
  loop_count : Int := 0
  web_results : List WebRecord := []
  rag_answer : String := ""
  rag_summary : String := ""
  scores : Option EvalRubric := none
deriving Repr, DecidableEq

/-- The rubric values parsed out of the evaluator's JSON response, with
the `data.get(key, default)` defaults already applied. -/
structure RubricData where
  coverage : ℚ := 0
  grounding : ℚ := 0
  coherence : ℚ := 0
  overall : ℚ := 0
  replan_needed : Bool := false
  critique : String := ""
deriving Repr, DecidableEq

/-- Final outcome of the evaluator's Gemini-JSON call chain (including
the one repair round and the retry loop): parsed rubric data, or the
message of the exception that ended the last attempt. -/
inductive EvalOutcome where
  | ok (data : RubricData)
  | fail (msg : String)
deriving Repr, DecidableEq

/-- The `EvalRubric(...)` constructor call of `agents.evaluator` lines
323-330, from parsed data. -/
def rubricOfData (d : RubricData) : EvalRubric :=
  { coverage := d.coverage
    grounding := d.grounding
    coherence := d.coherence
    overall := d.overall
    replan_needed := d.replan_needed
    critique := d.critique }

/-- The synthetic rubric of `agents.evaluator` line 347:
`EvalRubric(overall=0.0, replan_needed=True, critique=f"Evaluation
failed: {e}")` (the other axes keep their 0.0 defaults). -/
def failRubric (msg : String) : EvalRubric :=
  { overall := 0
    replan_needed := true
    critique := "Evaluation failed: " ++ msg }

/-- Embedding of `agents.evaluator`: increments `loop_count` first, then either
installs the parsed rubric and branches on `overall >= MIN_OVERALL`, or
(on unrecoverable failure) synthesizes a zero-score rubric with
`replan_needed=True` and an error critique. -/
def evaluator (MIN_OVERALL : ℚ) (o : EvalOutcome) (state : QueryState) :
    QueryState :=
  let state := { state with loop_count := state.loop_count + 1 }
  match o with
  | .ok d =>
    let rubric := rubricOfData d
    let state := { state with scores := some rubric }
    if rubric.overall ≥ MIN_OVERALL then
      { state with evaluation := "yes", feedback := "", bad_subqueries := [] }
    else
      { state with
        evaluation := "no"
        feedback := if rubric.critique ≠ "" then rubric.critique
          else "Needs improvement"
        bad_subqueries := state.subqueries }
  | .fail msg =>
    let scores := failRubric msg
    { state with
      scores := some scores
      evaluation := "no"
      feedback := scores.critique
      bad_subqueries := state.subqueries }

/-- The Python condition `state.scores and state.scores.overall <
MIN_OVERALL` (a pydantic model instance is always truthy, so the first
conjunct is exactly a `None` test). -/
def scoresBelowMin (MIN_OVERALL : ℚ) (state : QueryState) : Bool :=
  match state.scores with
  | some r => decide (r.overall < MIN_OVERALL)
  | none => false

/-- Embedding of `agents.should_replan`: the loop cap is checked first; otherwise
replan exactly when the overall score is below the threshold. -/
def should_replan (MAX_LOOPS : Int) (MIN_OVERALL : ℚ)
    (state : QueryState) : String :=
  if state.loop_count ≥ MAX_LOOPS then "end"
  else if scoresBelowMin MIN_OVERALL state then "replan"
  else "end"

/-- A sample state at the loop cap with a passing score. -/
def c1SampleState : QueryState :=
  { question := "q", loop_count := 3, scores := some { overall := 9/10 } }

/-- Python `s.startswith(pat)`. -/
def pyStartsWith (s pat : String) : Bool :=
  pat.data.isPrefixOf s.data

/-- Python `s.strip(chars)`: drop characters of `cs` from both ends. -/
def pyStripChars (cs : List Char) (s : String) : String :=
  ⟨((s.data.dropWhile (· ∈ cs)).reverse.dropWhile (· ∈ cs)).reverse⟩

/-- Python slicing `s[:n]`. -/
def pyTake (n : Nat) (s : String) : String :=
  ⟨s.data.take n⟩

/-- Python `str.splitlines()` restricted to `\n` separators.  (It may
keep one trailing empty line that CPython drops; every use below
filters blank lines away immediately, so the composition agrees.) -/
def splitLinesChars : List Char → List (List Char)
  | [] => [[]]
  | c :: rest =>
    match splitLinesChars rest with
    | [] => [[]]
    | l :: ls => if c = '\n' then [] :: l :: ls else (c :: l) :: ls

/-- Python `resp.text.splitlines()` as strings. -/
def pySplitLines (s : String) : List String :=
  (splitLinesChars s.data).map fun l => ⟨l⟩

/-- The subquery-list parse of `agents.planner` lines 151-155:
keep nonblank lines not starting with "here are" (case-insensitive),
strip numbering/bullet prefixes and whitespace. -/
def parsePlannerLines (text : String) : List String :=
  ((pySplitLines text).filter fun line =>
    !(pyStrip line == "") && !(pyStartsWith (pyLower line) "here are")).map
    fun line => pyStrip (pyStripChars "0123456789. ".data line)

/-- Embedding of `agents.structured_summarizer`: set `summary` from the completion,
or an error marker after the retry loop gives up. -/
def structured_summarizer (resp : LLMOutcome) (state : QueryState) :
    QueryState :=
  match resp with
  | .ok text => { state with summary := pyStrip text }
  | .err e => { state with summary := "Error: " ++ e }

/-- Embedding of `agents.planner`: on success, shift the current subqueries into
`previous_subqueries` and install the parsed new ones; on final failure
set `subqueries := []`. -/
def planner (resp : LLMOutcome) (state : QueryState) : QueryState :=
  match resp with
  | .ok text =>
    { state with
      previous_subqueries := state.subqueries
      subqueries := parsePlannerLines text }
  | .err _ => { state with subqueries := [] }

/-- Outcome of the executor's RAG call: the request failed (exception
caught), or it returned `output_text` with either a generated concise
summary or (`none`) a summary-generation timeout. -/
inductive RagOutcome where
  | err (msg : String)
  | ok (answer : String) (summary : Option String)
deriving Repr, DecidableEq

/-- Embedding of `agents.executor` as a stage: the RAG branch sets
`rag_answer`/`rag_summary` (with the timeout fallback
`answer[:200] + "..."`), then the per-subquery search/expand fan-out
fills `web_results` (dedup + citation numbering). -/
def executor (subqSearchCount maxSources : Nat) (rag : RagOutcome)
    (sos : Nat → SubqSearch) (envs : Nat → Nat → ExpandEnv)
    (state : QueryState) : QueryState :=
  let state :=
    match rag with
    | .err m =>
      { state with
        rag_answer := "RAG Error: " ++ m
        rag_summary := "RAG summary failed." }
    | .ok ans summ =>
      { state with
        rag_answer := ans
        rag_summary :=
          match summ with
          | some t => t
          | none => if ans ≠ "" then pyTake 200 ans ++ "..."
              else "No summary available" }
  { state with
    web_results :=
      executorWebResults subqSearchCount maxSources sos envs state.subqueries }

/-- Embedding of `agents.answer_subquestions`: one answer per current subquery (an
error marker on per-subquery failure).  The Python dict keyed by
subquery is an association list here. -/
def answer_subquestions (resp : String → LLMOutcome) (state : QueryState) :
    QueryState :=
  { state with
    answers := state.subqueries.map fun q =>
      (q, match resp q with
          | .ok t => pyStrip t
          | .err e => "Gemini error: " ++ e) }

/-- Embedding of `agents.synthesizer`: set `final_answer` from the completion, or an
error marker. -/
def synthesizer (resp : LLMOutcome) (state : QueryState) : QueryState :=
  match resp with
  | .ok t => { state with final_answer := pyStrip t }
  | .err e => { state with final_answer := "Error: " ++ e }

/-- Per-iteration oracles for every external call the workflow makes
(`i` is the loop-iteration index). -/
structure StageOracles where
  summarizerResp : LLMOutcome
  plannerResp : Nat → LLMOutcome
  ragOutcome : Nat → RagOutcome
  searchOutcome : Nat → Nat → SubqSearch
  expandEnv : Nat → Nat → Nat → ExpandEnv
  answerResp : Nat → String → LLMOutcome
  synthResp : Nat → LLMOutcome
  evalOutcome : Nat → EvalOutcome

/-- One pass of the loop body `planner → executor → answer_subqs →
synthesizer` (the stages between the back-edge target and `evaluator`
in `graph.create_workflow_graph`). -/
def loopBody (subqSearchCount maxSources : Nat) (orc : StageOracles)
    (i : Nat) (state : QueryState) : QueryState :=
  synthesizer (orc.synthResp i)
    (answer_subquestions (orc.answerResp i)
      (executor subqSearchCount maxSources (orc.ragOutcome i)
        (orc.searchOutcome i) (orc.expandEnv i)
        (planner (orc.plannerResp i) state)))

/-- The engine's conditional loop: run body then `evaluator`, follow the
back-edge while `should_replan` says "replan".  The recursion is fueled;
`runLoop_spec` shows that fuel `MAX_LOOPS.toNat` is never exhausted
before `should_replan` says "end", so the fueled function agrees with
the unbounded LangGraph loop.  Returns the final state and the number of
`Evaluate` passes executed. -/
def runLoop (MAX_LOOPS : Int) (MIN_OVERALL : ℚ)
    (subqSearchCount maxSources : Nat) (orc : StageOracles) :
    Nat → Nat → QueryState → QueryState × Nat
  | 0, _, state => (state, 0)
  | fuel + 1, i, state =>
    let state1 := evaluator MIN_OVERALL (orc.evalOutcome i)
      (loopBody subqSearchCount maxSources orc i state)
    if should_replan MAX_LOOPS MIN_OVERALL state1 = "replan" then
      let r := runLoop MAX_LOOPS MIN_OVERALL subqSearchCount maxSources orc
        fuel (i + 1) state1
      (r.1, r.2 + 1)
    else (state1, 1)

/-- The fresh state a request starts from (only `question` set). -/
def initQueryState (question : String) : QueryState :=
  { question := question }

/-- The whole workflow on a question: `summarizer` once, then the
planner-to-evaluator loop. -/
def run_workflow (MAX_LOOPS : Int) (MIN_OVERALL : ℚ)
    (subqSearchCount maxSources : Nat) (orc : StageOracles)
    (question : String) : QueryState × Nat :=
  runLoop MAX_LOOPS MIN_OVERALL subqSearchCount maxSources orc
    MAX_LOOPS.toNat 0
    (structured_summarizer orc.summarizerResp (initQueryState question))

/-- A concrete oracle bundle: every call succeeds, the rubric passes the
threshold on the first pass. -/
def sampleOracles : StageOracles :=
  { summarizerResp := .ok "sum"
    plannerResp := fun _ => .ok "1. q1"
    ragOutcome := fun _ => .ok "ans" (some "rs")
    searchOutcome := fun _ _ => .search (.ok [{ title := "t", link := "http://x" }])
    expandEnv := fun _ _ _ =>
      { allowed := true, fetch := .failed, summarize := .ok "s" }
    answerResp := fun _ _ => .ok "a"
    synthResp := fun _ => .ok "f"
    evalOutcome := fun _ => .ok { overall := 1 } }

/-- Expiration instant of a cache entry: a finite timestamp (`now +
ttl`) or `float('inf')`.  Wall-clock instants are `Int`. -/
inductive Expiry where
  | fin (t : Int)
  | inf
deriving Repr, DecidableEq

/-- The liveness test `expiration > time.time()` used by
`get`/`contains`/`_cleanup_expired`. -/
def Expiry.activeAt : Expiry → Int → Bool
  | .fin t, now => decide (now < t)
  | .inf, _ => true

/-- Python `<` on stored expirations (`inf` is greater than every
finite instant), used by `_evict_oldest`'s `min`. -/
def Expiry.blt : Expiry → Expiry → Bool
  | .fin a, .fin b => decide (a < b)
  | .fin _, .inf => true
  | .inf, _ => false

/-- Embedding of `cache_utils.MemoryCache`: `entries` is the dict
`self._cache : key -> (value, expiration)` in insertion order (Python
dicts preserve it; assignment to an existing key keeps its slot), the
remaining fields are the `statistics` counters. -/
structure MemoryCache (K V : Type) where
  max_size : Nat := 1000
  default_ttl : Int := 3600
  entries : List (K × V × Expiry) := []
  hits : Nat := 0
  misses : Nat := 0
  evictions : Nat := 0
  insertions : Nat := 0
  size : Nat := 0

/-- Python `key in self._cache`. -/
def hasKey [DecidableEq K] (l : List (K × V × Expiry)) (key : K) : Bool :=
  l.any fun e => decide (e.1 = key)

/-- Embedding of `MemoryCache._cleanup_expired`: drop entries with
`expiration <= now`, counting them as evictions. -/
def MemoryCache.cleanupExpired (now : Int) (c : MemoryCache K V) :
    MemoryCache K V :=
  let kept := c.entries.filter fun e => e.2.2.activeAt now
  { c with
    entries := kept
    evictions := c.evictions + (c.entries.countP fun e => !(e.2.2.activeAt now))
    size := kept.length }

/-- Python `min(keys, key=expiration)`: the first entry achieving the
minimal expiration (Python `min` keeps the earlier element on ties). -/
def minExpEntry (e : K × V × Expiry) (rest : List (K × V × Expiry)) :
    K × V × Expiry :=
  rest.foldl (fun best x => if x.2.2.blt best.2.2 then x else best) e

/-- Embedding of `MemoryCache._evict_oldest`: no-op on an empty cache, otherwise
delete the key with the lowest expiration and count one eviction. -/
def MemoryCache.evictOldest [DecidableEq K] (c : MemoryCache K V) :
    MemoryCache K V :=
  match c.entries with
  | [] => c
  | e :: rest =>
    let oldest := minExpEntry e rest
    let entries := c.entries.eraseP fun x => decide (x.1 = oldest.1)
    { c with
      entries := entries
      evictions := c.evictions + 1
      size := entries.length }

/-- The expiration computed at insertion:
`time.time() + (ttl if ttl is not None else self.default_ttl) if
(ttl != 0) else float('inf')` — note `None != 0` is true in Python, so
only an explicit `ttl=0` yields `inf`. -/
def putExpiry (now : Int) (ttl : Option Int) (default_ttl : Int) : Expiry :=
  if ttl ≠ some 0 then .fin (now + ttl.getD default_ttl) else .inf

/-- The dict assignment `self._cache[key] = (value, expiration)`:
update in place if present (keeping the slot), else append. -/
def updateEntries [DecidableEq K] (l : List (K × V × Expiry)) (key : K)
    (value : V) (exp : Expiry) : List (K × V × Expiry) :=
  if hasKey l key then l.map fun e => if e.1 = key then (key, value, exp) else e
  else l ++ [(key, value, exp)]

/-- The first half of `MemoryCache.put`: `_cleanup_expired`, then the
capacity check `len >= max_size and key not in cache` triggering
`_evict_oldest`. -/
def putCore [DecidableEq K] (now : Int) (key : K) (c : MemoryCache K V) :
    MemoryCache K V :=
  let c := c.cleanupExpired now
  if c.entries.length ≥ c.max_size ∧ hasKey c.entries key = false
  then c.evictOldest else c

/-- Embedding of `MemoryCache.put`: cleanup, capacity eviction (only when the key is
new), expiration computation, insertion, statistics. -/
def MemoryCache.put [DecidableEq K] (now : Int) (key : K) (value : V)
    (ttl : Option Int) (c : MemoryCache K V) : MemoryCache K V :=
  let c := putCore now key c
  let expiration := putExpiry now ttl c.default_ttl
  let entries := updateEntries c.entries key value expiration
  { c with
    entries := entries
    insertions := c.insertions + 1
    size := entries.length }

/-- Embedding of `MemoryCache.get`: hit when present and unexpired; lazily delete an
expired entry; count a miss otherwise.  Returns the value and the
mutated cache. -/
def MemoryCache.get [DecidableEq K] (now : Int) (key : K)
    (c : MemoryCache K V) : Option V × MemoryCache K V :=
  match c.entries.find? (fun e => decide (e.1 = key)) with
  | some (_, v, exp) =>
    if exp.activeAt now then
      (some v, { c with hits := c.hits + 1 })
    else
      let entries := c.entries.eraseP fun e => decide (e.1 = key)
      (none,
        { c with
          entries := entries
          size := entries.length
          misses := c.misses + 1 })
  | none => (none, { c with misses := c.misses + 1 })

/-- Embedding of `MemoryCache.contains`: present and unexpired (no mutation). -/
def MemoryCache.contains [DecidableEq K] (now : Int) (key : K)
    (c : MemoryCache K V) : Bool :=
  match c.entries.find? (fun e => decide (e.1 = key)) with
  | some (_, _, exp) => exp.activeAt now
  | none => false

/-- A cache whose configured default ttl is 0 (spec: "unbounded"). -/
def zeroTtlCache : MemoryCache String Nat :=
  { default_ttl := 0 }

/-- A fresh cache configured with `max_size = 0`. -/
def zeroCapCache : MemoryCache String Nat :=
  { max_size := 0 }

/-- Search items of the C3 witness scenario's failing subquery. -/
def c3SampleItems : List SearchItem :=
  [{ title := "t1", link := "http://x" }, { title := "t2", link := "http://y" }]

/-- Per-subquery oracles for the C3 witness scenario: subquery 0's
worker-launch loop raises after starting one of its two workers;
subquery 1 succeeds. -/
def c3SampleSearch : Nat → SubqSearch := fun i =>
  if i = 0 then .raisesAtLink (.ok c3SampleItems) 1 "boom"
  else .search (.ok [{ title := "t3", link := "http://z" }])

/-- Expand-worker oracles for the C3 witness scenario: every fetch
fails. -/
def c3SampleEnvs : Nat → Nat → ExpandEnv := fun _ _ =>
  { allowed := true, fetch := .failed, summarize := .ok "s" }

/-- A two-entry cache at capacity. -/
def twoEntryCache : MemoryCache String Nat :=
  { max_size := 2
    entries := [("a", 1, .fin 10), ("b", 2, .fin 5)] }

theorem dedupeGo_sublist (xs : List WebRecord) :
    ∀ seen, (dedupeGo seen xs).Sublist xs := by
  induction xs with
  | nil => intro seen; simp [dedupeGo]
  | cons r rs ih =>
    intro seen
    by_cases h : recKey r ≠ "" ∧ recKey r ∉ seen
    · simpa [dedupeGo, h] using List.Sublist.cons₂ r (ih (recKey r :: seen))
    · simpa [dedupeGo, h] using List.Sublist.cons r (ih seen)

theorem dedupeGo_idem (xs : List WebRecord) :
    ∀ seen, dedupeGo seen (dedupeGo seen xs) = dedupeGo seen xs := by
  induction xs with
  | nil => intro seen; simp [dedupeGo]
  | cons r rs ih =>
    intro seen
    by_cases h : recKey r ≠ "" ∧ recKey r ∉ seen
    · simp only [dedupeGo, h, if_pos, ih]
      simp [dedupeGo, h, ih (recKey r :: seen)]
    · simp [dedupeGo, h, ih seen]

theorem dedupeGo_find? (xs : List WebRecord) :
    ∀ seen k, k ∉ seen → k ≠ "" →
      (dedupeGo seen xs).find? (fun r => recKey r == k) =
      xs.find? (fun r => recKey r == k) := by
  induction xs with
  | nil => intro seen k _ _; simp [dedupeGo]
  | cons r rs ih =>
    intro seen k hk hne
    by_cases heq : recKey r = k
    · have hcond : recKey r ≠ "" ∧ recKey r ∉ seen := by
        constructor
        · simpa [heq] using hne
        · simpa [heq] using hk
      show (if recKey r ≠ "" ∧ recKey r ∉ seen then
          r :: dedupeGo (recKey r :: seen) rs else dedupeGo seen rs).find?
            (fun r => recKey r == k) = _
      rw [if_pos hcond, List.find?_cons_of_pos _ (by simp [heq]),
          List.find?_cons_of_pos _ (by simp [heq])]
    · by_cases hcond : recKey r ≠ "" ∧ recKey r ∉ seen
      · show (if recKey r ≠ "" ∧ recKey r ∉ seen then
            r :: dedupeGo (recKey r :: seen) rs else dedupeGo seen rs).find?
              (fun r => recKey r == k) = _
        rw [if_pos hcond, List.find?_cons_of_neg _ (by simp [heq]),
            List.find?_cons_of_neg _ (by simp [heq])]
        exact ih (recKey r :: seen) k (by simp [hk, Ne.symm heq]) hne
      · show (if recKey r ≠ "" ∧ recKey r ∉ seen then
            r :: dedupeGo (recKey r :: seen) rs else dedupeGo seen rs).find?
              (fun r => recKey r == k) = _
        rw [if_neg hcond, List.find?_cons_of_neg _ (by simp [heq])]
        exact ih seen k hk hne

/-- C9: `dedupe_by_link` is idempotent, its output is an
order-preserving sublist of its input, and for every nonempty link key
the record it keeps is exactly the first record of the input carrying
that key. -/
theorem dedupe_by_link_idempotent_first_occurrence (xs : List WebRecord) :
    dedupe_by_link (dedupe_by_link xs) = dedupe_by_link xs ∧
    (dedupe_by_link xs).Sublist xs ∧
    (∀ k : String, k ≠ "" →
      (dedupe_by_link xs).find? (fun r => recKey r == k) =
      xs.find? (fun r => recKey r == k)) := by
  refine ⟨dedupeGo_idem xs [], dedupeGo_sublist xs [], ?_⟩
  intro k hk
  exact dedupeGo_find? xs [] k (by simp) hk

/-- Concrete instantiation of the C9 theorem: a three-record list with a
duplicated link. -/
theorem dedupe_by_link_idempotent_first_occurrence_witness :
    (("u" : String) ≠ "" ∧
      (dedupe_by_link [{ link := "u", title := "a" }, { link := "v" },
        { link := "u", title := "b" }]).find? (fun r => recKey r == "u") =
      ([{ link := "u", title := "a" }, { link := "v" },
        { link := "u", title := "b" }] : List WebRecord).find?
          (fun r => recKey r == "u")) := by
  refine ⟨by decide, ?_⟩
  exact (dedupe_by_link_idempotent_first_occurrence
    [{ link := "u", title := "a" }, { link := "v" },
     { link := "u", title := "b" }]).2.2 "u" (by decide)

/-- C10: every `expand_and_summarize_web` call enqueues at least one
record; on the early-return failure paths it enqueues the same record
exactly twice (early `queue.put` plus the `finally` put), while the
normal summarization path (success or summarization error) enqueues
exactly once — so the pre-deduplication aggregate may hold duplicate
records for a failed link. -/
theorem expand_and_summarize_web_queue_counts (link : WebRecord)
    (env : ExpandEnv) :
    1 ≤ (expand_and_summarize_web link env).length ∧
    (expandEarlyReturn link env = true →
      ∃ r, expand_and_summarize_web link env = [r, r]) ∧
    (expandEarlyReturn link env = false →
      (expand_and_summarize_web link env).length = 1) := by
  rcases env with ⟨allowed, fetch, summarize⟩
  simp only [expand_and_summarize_web, expandEarlyReturn, summarizeStep]
  generalize (if link.link ≠ "" then link.link else link.url) = url
  by_cases hurl : url = ""
  · simp [hurl]
  · cases fetch with
    | raises msg =>
      cases allowed <;> cases summarize <;> simp [hurl]
    | failed =>
      cases allowed <;> simp [hurl]
    | resp ctype text =>
      by_cases hpdf : is_probably_pdf url ctype = true
      · cases allowed <;> simp [hurl, hpdf]
      · cases allowed <;> cases summarize <;>
          simp [hurl, hpdf]

/-- Concrete instantiation of the C10 theorem: a PDF link (early path)
is enqueued twice. -/
theorem expand_and_summarize_web_queue_counts_witness :
    (expandEarlyReturn { link := "http://x/a.pdf" }
        { allowed := true, fetch := .resp "application/pdf" "",
          summarize := .ok "s" } = true ∧
      ∃ r, expand_and_summarize_web { link := "http://x/a.pdf" }
        { allowed := true, fetch := .resp "application/pdf" "",
          summarize := .ok "s" } = [r, r]) := by
  refine ⟨by decide, ?_⟩
  exact (expand_and_summarize_web_queue_counts _ _).2.1 (by decide)

theorem expand_preserves_n (link : WebRecord) (env : ExpandEnv) :
    ∀ r ∈ expand_and_summarize_web link env, r.n = link.n := by
  rcases env with ⟨allowed, fetch, summarize⟩
  simp only [expand_and_summarize_web, summarizeStep]
  generalize (if link.link ≠ "" then link.link else link.url) = url
  by_cases hurl : url = "" ∨ allowed = false
  · simp [hurl]
  · rw [if_neg hurl]
    cases fetch with
    | raises m => cases summarize <;> simp
    | failed => simp
    | resp ct tx =>
      by_cases hpdf : is_probably_pdf url ct = true <;>
        cases summarize <;> simp [hpdf]

theorem expandAll_n_none (links : List WebRecord) :
    ∀ envs, (∀ l ∈ links, l.n = none) →
      ∀ r ∈ expandAll envs links, r.n = none := by
  induction links with
  | nil => intro envs _; simp [expandAll]
  | cons l rest ih =>
    intro envs h r hr
    simp only [expandAll, List.mem_append] at hr
    rcases hr with hr | hr
    · rw [expand_preserves_n l (envs 0) r hr]
      exact h l (by simp)
    · exact ih _ (fun x hx => h x (by simp [hx])) r hr

theorem search_with_google_cse_n_none (o : SearchHttp) :
    ∀ r ∈ search_with_google_cse o, r.n = none := by
  cases o with
  | raises m => simp [search_with_google_cse]
  | ok items =>
    intro r hr
    simp only [search_with_google_cse, List.mem_map] at hr
    rcases hr with ⟨it, _, rfl⟩
    rfl

theorem subqLinks_n_none (c : Nat) (o : SearchHttp) :
    ∀ l ∈ subqLinks c o, l.n = none := by
  intro l hl
  exact search_with_google_cse_n_none o l
    (List.mem_of_mem_filter (List.take_subset _ _ hl))

theorem executorSubq_n_none (c : Nat) (s : String) (so : SubqSearch)
    (envs : Nat → ExpandEnv) :
    ∀ r ∈ executorSubq c s so envs, r.n = none := by
  cases so with
  | search o =>
    intro r hr
    exact expandAll_n_none _ envs (subqLinks_n_none c o) r hr
  | raisesAtLink o started m =>
    intro r hr
    rcases List.mem_cons.mp hr with heq | hmem
    · rw [heq]
      rfl
    · refine expandAll_n_none _ envs (fun l hl => ?_) r hmem
      exact subqLinks_n_none c o l (List.take_subset _ _ hl)

theorem executorAggregated_n_none (c : Nat) (subqs : List String) :
    ∀ sos envs, ∀ r ∈ executorAggregated c sos envs subqs, r.n = none := by
  induction subqs with
  | nil => intro sos envs; simp [executorAggregated]
  | cons s rest ih =>
    intro sos envs r hr
    simp only [executorAggregated, List.mem_append] at hr
    rcases hr with hr | hr
    · exact executorSubq_n_none c s (sos 0) (envs 0) r hr
    · exact ih _ _ r hr

/-- C5: after every executor pass, the citation indices of
`state.web_results` are exactly the dense sequence 1..k with no gaps or
duplicates, where k = min(length after dedup-by-link,
MAX_SOURCES_FOR_CITATIONS); records beyond position k carry no index
(`n` is assigned only after deduplication). -/
theorem executor_citation_indices_dense (c m : Nat) (sos : Nat → SubqSearch)
    (envs : Nat → Nat → ExpandEnv) (subqs : List String) :
    (executorWebResults c m sos envs subqs).length =
      (dedupe_by_link (executorAggregated c sos envs subqs)).length ∧
    ∀ i, (h : i < (executorWebResults c m sos envs subqs).length) →
      ((executorWebResults c m sos envs subqs).get ⟨i, h⟩).n =
        if i < min (dedupe_by_link (executorAggregated c sos envs subqs)).length m
        then some (i + 1) else none := by
  have hlen : (executorWebResults c m sos envs subqs).length =
      (dedupe_by_link (executorAggregated c sos envs subqs)).length := by
    simp [executorWebResults, assignCitations]
  refine ⟨hlen, ?_⟩
  intro i h
  have hl : i < (dedupe_by_link (executorAggregated c sos envs subqs)).length := by
    rw [← hlen]; exact h
  have hmem : (dedupe_by_link (executorAggregated c sos envs subqs)).get
      ⟨i, hl⟩ ∈ executorAggregated c sos envs subqs :=
    (dedupeGo_sublist _ []).subset (List.get_mem _ _ hl)
  have hnone : ((dedupe_by_link (executorAggregated c sos envs subqs)).get
      ⟨i, hl⟩).n = none :=
    executorAggregated_n_none c subqs sos envs _ hmem
  simp only [executorWebResults, assignCitations, List.get_eq_getElem,
    List.getElem_map, List.getElem_enum]
  by_cases hm : i < m
  · simp [hm, Nat.lt_min, hl]
  · simp only [hm, if_false]
    rw [if_neg (by omega)]
    simpa [List.get_eq_getElem] using hnone

/-- Concrete instantiation of the C5 theorem: two subqueries, one
duplicated link, truncation bound 1. -/
theorem executor_citation_indices_dense_witness :
    (0 < (executorWebResults 3 1
        (fun _ => .search (.ok [{ link := "http://x" }, { link := "http://y" }]))
        (fun _ _ => { allowed := true, fetch := .failed, summarize := .ok "s" })
        ["a"]).length ∧
      ((executorWebResults 3 1
        (fun _ => .search (.ok [{ link := "http://x" }, { link := "http://y" }]))
        (fun _ _ => { allowed := true, fetch := .failed, summarize := .ok "s" })
        ["a"]).get ⟨0, by decide⟩).n =
        if 0 < min (dedupe_by_link (executorAggregated 3
          (fun _ => .search (.ok [{ link := "http://x" }, { link := "http://y" }]))
          (fun _ _ => { allowed := true, fetch := .failed, summarize := .ok "s" })
          ["a"])).length 1 then some 1 else none) := by
  refine ⟨by decide, ?_⟩
  exact (executor_citation_indices_dense 3 1
    (fun _ => .search (.ok [{ link := "http://x" }, { link := "http://y" }]))
    (fun _ _ => { allowed := true, fetch := .failed, summarize := .ok "s" })
    ["a"]).2 0 (by decide)

/-- C3 counterexample: two subqueries; the CSE search for "a" raises,
the search for "b" succeeds with one link whose fetch fails.  The
resulting `web_results` contains only subquery "b"'s record — no
synthetic placeholder for "a" appears (its title would be "a"), because
`search_with_google_cse` swallows the exception and returns an empty
list. -/
theorem executor_search_failure_counterexample :
    (executorWebResults 3 10
        (fun i => if i = 0 then .search (.raises "boom")
          else .search (.ok [{ title := "t1", link := "http://x", snippet := "sn" }]))
        (fun _ _ => { allowed := true, fetch := .failed, summarize := .ok "s" })
        ["a", "b"]) =
      [{ title := "t1", link := "http://x", url := "http://x", snippet := "sn",
         summary := "Failed to fetch page.", n := some 1 }] ∧
    ∀ r ∈ (executorWebResults 3 10
        (fun i => if i = 0 then .search (.raises "boom")
          else .search (.ok [{ title := "t1", link := "http://x", snippet := "sn" }]))
        (fun _ _ => { allowed := true, fetch := .failed, summarize := .ok "s" })
        ["a", "b"]), r.title ≠ "a" := by
  constructor
  · decide
  · decide

/-- C3 as amended: a failure raised inside the search call for one
subquery contributes no record at all to `state.web_results` — the
exception is swallowed by `search_with_google_cse`, which returns an
empty list, so no placeholder is ever created; in the only case where
the executor's own `except` branch runs (an exception while launching
the fetch worker for link `started`), the placeholder it appends has an
empty link and `dedupe_by_link` drops it, so `web_results` then carries
exactly the records of the workers already launched for that subquery
(links `0..started-1`) and no placeholder.  In both failure modes the
remaining subqueries' contribution enters unchanged. -/
theorem executor_search_failure_no_placeholder (c m : Nat) (s msg : String)
    (subqs : List String) (sos : Nat → SubqSearch)
    (envs : Nat → Nat → ExpandEnv) :
    (sos 0 = .search (.raises msg) →
      executorSubq c s (sos 0) (envs 0) = [] ∧
      executorWebResults c m sos envs (s :: subqs) =
        assignCitations m (dedupe_by_link (executorAggregated c
          (fun i => sos (i + 1)) (fun i => envs (i + 1)) subqs))) ∧
    (∀ outcome started, sos 0 = .raisesAtLink outcome started msg →
      executorSubq c s (sos 0) (envs 0) =
        websearchErrorRecord s msg ::
          expandAll (envs 0) ((subqLinks c outcome).take started) ∧
      (∀ l, dedupe_by_link (websearchErrorRecord s msg :: l) =
        dedupe_by_link l) ∧
      executorWebResults c m sos envs (s :: subqs) =
        assignCitations m (dedupe_by_link
          (expandAll (envs 0) ((subqLinks c outcome).take started) ++
            executorAggregated c (fun i => sos (i + 1))
              (fun i => envs (i + 1)) subqs))) := by
  have hkey : recKey (websearchErrorRecord s msg) = "" := by
    simp [recKey, websearchErrorRecord, pyStrip]
  have hdrop : ∀ l, dedupe_by_link (websearchErrorRecord s msg :: l) =
      dedupe_by_link l := by
    intro l
    show dedupeGo [] (websearchErrorRecord s msg :: l) = dedupeGo [] l
    simp [dedupeGo, hkey]
  constructor
  · intro h0
    have hsub : executorSubq c s (sos 0) (envs 0) = [] := by
      rw [h0]
      simp [executorSubq, subqLinks, search_with_google_cse, expandAll]
    refine ⟨hsub, ?_⟩
    simp [executorWebResults, executorAggregated, hsub]
  · intro outcome started h0
    have hsub : executorSubq c s (sos 0) (envs 0) =
        websearchErrorRecord s msg ::
          expandAll (envs 0) ((subqLinks c outcome).take started) := by
      rw [h0]
      rfl
    refine ⟨hsub, hdrop, ?_⟩
    show assignCitations m (dedupe_by_link
      (executorSubq c s (sos 0) (envs 0) ++
        executorAggregated c (fun i => sos (i + 1))
          (fun i => envs (i + 1)) subqs)) = _
    rw [hsub, List.cons_append, hdrop]

/-- Concrete instantiation of the amended C3 theorem: the worker-launch
raise happens after one of subquery "a"'s two workers started; that
worker's record survives into `web_results`, the placeholder does not,
and subquery "b"'s records are unaffected. -/
theorem executor_search_failure_no_placeholder_witness :
    (c3SampleSearch 0 =
      SubqSearch.raisesAtLink (.ok c3SampleItems) 1 "boom" ∧
      executorSubq 3 "a" (c3SampleSearch 0) (c3SampleEnvs 0) =
        websearchErrorRecord "a" "boom" ::
          expandAll (c3SampleEnvs 0)
            ((subqLinks 3 (.ok c3SampleItems)).take 1) ∧
      executorWebResults 3 10 c3SampleSearch c3SampleEnvs ["a", "b"] =
        assignCitations 10 (dedupe_by_link
          (expandAll (c3SampleEnvs 0)
            ((subqLinks 3 (.ok c3SampleItems)).take 1) ++
            executorAggregated 3 (fun i => c3SampleSearch (i + 1))
              (fun i => c3SampleEnvs (i + 1)) ["b"]))) := by
  refine ⟨rfl, ?_, ?_⟩
  · exact ((executor_search_failure_no_placeholder 3 10 "a" "boom" ["b"]
      c3SampleSearch c3SampleEnvs).2 (.ok c3SampleItems) 1 rfl).1
  · exact ((executor_search_failure_no_placeholder 3 10 "a" "boom" ["b"]
      c3SampleSearch c3SampleEnvs).2 (.ok c3SampleItems) 1 rfl).2.2

/-- C1: with `scores` set, `should_replan` returns "end" whenever
`loop_count >= MAX_LOOPS` (the cap check takes precedence); below the
cap it returns "end" iff `overall >= MIN_OVERALL` and "replan" iff
`overall < MIN_OVERALL`. -/
theorem should_replan_cap_then_threshold (ML : Int) (M : ℚ)
    (s : QueryState) (r : EvalRubric) (hs : s.scores = some r) :
    (ML ≤ s.loop_count → should_replan ML M s = "end") ∧
    (s.loop_count < ML →
      ((should_replan ML M s = "end" ↔ M ≤ r.overall) ∧
       (should_replan ML M s = "replan" ↔ r.overall < M))) := by
  constructor
  · intro h
    unfold should_replan
    rw [if_pos (by omega)]
  · intro h
    unfold should_replan
    rw [if_neg (by omega)]
    by_cases ho : r.overall < M
    · rw [if_pos (by simp [scoresBelowMin, hs, ho])]
      refine ⟨⟨fun hEq => absurd hEq (by decide), fun hM => absurd ho (not_lt.mpr hM)⟩, ?_⟩
      simp [ho]
    · rw [if_neg (by simp [scoresBelowMin, hs, ho])]
      refine ⟨by simp [not_lt.mp ho], ?_⟩
      exact ⟨fun hEq => absurd hEq (by decide), fun hlt => absurd hlt ho⟩

/-- Concrete instantiation of the C1 theorem: a state at the loop cap
whose score also meets the threshold still ends. -/
theorem should_replan_cap_then_threshold_witness :
    (c1SampleState.scores = some { overall := 9/10 } ∧
      (3 : Int) ≤ c1SampleState.loop_count ∧
      should_replan 3 (7/10) c1SampleState = "end") := by
  refine ⟨rfl, by decide, ?_⟩
  exact (should_replan_cap_then_threshold 3 (7/10) c1SampleState
    { overall := 9/10 } rfl).1 (by decide)

/-- C4: `evaluator` increments `loop_count` before anything else (in
every outcome); on unrecoverable failure it installs the synthetic
zero-score rubric with `replan_needed=True` and the error critique and
sets `evaluation="no"`; on success at or above `MIN_OVERALL` it sets
`evaluation="yes"` and clears `feedback` and `bad_subqueries`; on
success below it sets `evaluation="no"`, `feedback` to the critique (or
the default), and `bad_subqueries` to the current subqueries; and the
state it returns always carries a rubric (so `scores.overall` is
present whenever `evaluation` has been set). -/
theorem evaluator_spec (M : ℚ) (o : EvalOutcome) (s : QueryState) :
    ((evaluator M o s).loop_count = s.loop_count + 1) ∧
    (∀ msg, o = .fail msg →
      (evaluator M o s).scores = some (failRubric msg) ∧
      (evaluator M o s).evaluation = "no") ∧
    (∀ d, o = .ok d →
      (evaluator M o s).scores = some (rubricOfData d) ∧
      (M ≤ d.overall →
        (evaluator M o s).evaluation = "yes" ∧
        (evaluator M o s).feedback = "" ∧
        (evaluator M o s).bad_subqueries = []) ∧
      (d.overall < M →
        (evaluator M o s).evaluation = "no" ∧
        (evaluator M o s).feedback =
          (if d.critique ≠ "" then d.critique else "Needs improvement") ∧
        (evaluator M o s).bad_subqueries = s.subqueries)) ∧
    ((evaluator M o s).scores.isSome = true) := by
  cases o with
  | fail msg =>
    refine ⟨by rfl, ?_, ?_, by rfl⟩
    · intro m hm
      obtain rfl : msg = m := EvalOutcome.fail.inj hm
      exact ⟨rfl, rfl⟩
    · intro d hd
      exact nomatch hd
  | ok d =>
    by_cases hov : M ≤ d.overall
    · refine ⟨by simp [evaluator, rubricOfData, hov], ?_, ?_,
        by simp [evaluator, rubricOfData, hov]⟩
      · intro m hm
        exact nomatch hm
      · intro d2 hd
        obtain rfl : d = d2 := EvalOutcome.ok.inj hd
        refine ⟨by simp [evaluator, rubricOfData, hov], ?_, ?_⟩
        · intro _
          refine ⟨by simp [evaluator, rubricOfData, hov],
            by simp [evaluator, rubricOfData, hov],
            by simp [evaluator, rubricOfData, hov]⟩
        · intro hlt
          exact absurd hlt (not_lt.mpr hov)
    · refine ⟨by simp [evaluator, rubricOfData, hov], ?_, ?_,
        by simp [evaluator, rubricOfData, hov]⟩
      · intro m hm
        exact nomatch hm
      · intro d2 hd
        obtain rfl : d = d2 := EvalOutcome.ok.inj hd
        refine ⟨by simp [evaluator, rubricOfData, hov], ?_, ?_⟩
        · intro hge
          exact absurd hge hov
        · intro _
          refine ⟨by simp [evaluator, rubricOfData, hov],
            by simp [evaluator, rubricOfData, hov],
            by simp [evaluator, rubricOfData, hov]⟩

/-- Concrete instantiation of the C4 theorem: a failed evaluation still
counts toward the loop budget and yields the zero-score rubric. -/
theorem evaluator_spec_witness :
    (EvalOutcome.fail "boom" = .fail "boom" ∧
      (evaluator (7/10) (.fail "boom") { question := "q" }).scores =
        some (failRubric "boom") ∧
      (evaluator (7/10) (.fail "boom") { question := "q" }).evaluation = "no") := by
  refine ⟨rfl, ?_⟩
  exact (evaluator_spec (7/10) (.fail "boom") { question := "q" }).2.1 "boom" rfl

theorem evaluator_loop_count (M : ℚ) (o : EvalOutcome) (s : QueryState) :
    (evaluator M o s).loop_count = s.loop_count + 1 := by
  cases o with
  | fail msg => rfl
  | ok d =>
    simp only [evaluator]
    split <;> rfl

theorem planner_loop_count (resp : LLMOutcome) (s : QueryState) :
    (planner resp s).loop_count = s.loop_count := by
  cases resp <;> rfl

theorem executor_loop_count (c m : Nat) (rag : RagOutcome)
    (sos : Nat → SubqSearch) (envs : Nat → Nat → ExpandEnv)
    (s : QueryState) :
    (executor c m rag sos envs s).loop_count = s.loop_count := by
  cases rag with
  | err msg => rfl
  | ok ans summ => cases summ <;> rfl

theorem synthesizer_loop_count (resp : LLMOutcome) (s : QueryState) :
    (synthesizer resp s).loop_count = s.loop_count := by
  cases resp <;> rfl

theorem loopBody_loop_count (c m : Nat) (orc : StageOracles) (i : Nat)
    (s : QueryState) :
    (loopBody c m orc i s).loop_count = s.loop_count := by
  simp only [loopBody, synthesizer_loop_count]
  show (answer_subquestions _ _).loop_count = _
  simp only [answer_subquestions]
  rw [show ∀ t : QueryState, ({ t with answers := t.subqueries.map fun q =>
    (q, match orc.answerResp i q with
        | .ok u => pyStrip u
        | .err e => "Gemini error: " ++ e) } : QueryState).loop_count =
      t.loop_count from fun t => rfl]
  rw [executor_loop_count, planner_loop_count]

theorem should_replan_end_or_replan (ML : Int) (M : ℚ) (s : QueryState) :
    should_replan ML M s = "end" ∨ should_replan ML M s = "replan" := by
  unfold should_replan
  split
  · left; rfl
  · split
    · right; rfl
    · left; rfl

theorem should_replan_replan_lt (ML : Int) (M : ℚ) (s : QueryState)
    (h : should_replan ML M s = "replan") : s.loop_count < ML := by
  by_contra hge
  unfold should_replan at h
  rw [if_pos (by omega)] at h
  exact absurd h (by decide)

theorem runLoop_spec (ML : Int) (M : ℚ) (c m : Nat) (orc : StageOracles) :
    ∀ (fuel : Nat) (i : Nat) (s : QueryState),
      ML ≤ s.loop_count + (fuel : Int) →
      (runLoop ML M c m orc fuel i s).1.loop_count =
        s.loop_count + ((runLoop ML M c m orc fuel i s).2 : Int) ∧
      (runLoop ML M c m orc fuel i s).2 ≤ fuel ∧
      should_replan ML M (runLoop ML M c m orc fuel i s).1 = "end" := by
  intro fuel
  induction fuel with
  | zero =>
    intro i s h
    refine ⟨by simp [runLoop], by simp [runLoop], ?_⟩
    show should_replan ML M s = "end"
    unfold should_replan
    rw [if_pos (by push_cast at h; omega)]
  | succ fuel ih =>
    intro i s h
    have hlc : (evaluator M (orc.evalOutcome i)
        (loopBody c m orc i s)).loop_count = s.loop_count + 1 := by
      rw [evaluator_loop_count, loopBody_loop_count]
    by_cases hr : should_replan ML M (evaluator M (orc.evalOutcome i)
        (loopBody c m orc i s)) = "replan"
    · have hrec := ih (i + 1) (evaluator M (orc.evalOutcome i)
        (loopBody c m orc i s)) (by rw [hlc]; push_cast at h ⊢; omega)
      have hstep : runLoop ML M c m orc (fuel + 1) i s =
          ((runLoop ML M c m orc fuel (i + 1) (evaluator M (orc.evalOutcome i)
            (loopBody c m orc i s))).1,
           (runLoop ML M c m orc fuel (i + 1) (evaluator M (orc.evalOutcome i)
            (loopBody c m orc i s))).2 + 1) := by
        simp only [runLoop]
        rw [if_pos hr]
      rw [hstep]
      dsimp only
      refine ⟨?_, Nat.succ_le_succ hrec.2.1, hrec.2.2⟩
      rw [hrec.1, hlc]
      push_cast
      ring
    · have hstep : runLoop ML M c m orc (fuel + 1) i s =
          (evaluator M (orc.evalOutcome i) (loopBody c m orc i s), 1) := by
        simp only [runLoop]
        rw [if_neg hr]
      rw [hstep]
      dsimp only
      refine ⟨by rw [hlc]; push_cast; ring, Nat.succ_le_succ (Nat.zero_le fuel), ?_⟩
      rcases should_replan_end_or_replan ML M (evaluator M (orc.evalOutcome i)
        (loopBody c m orc i s)) with he | he
      · exact he
      · exact absurd he hr

/-- C2: starting from `loop_count = 0` with `MAX_LOOPS >= 1`, the
evaluator increments `loop_count` exactly once per Evaluate pass and no
stage ever decrements it (so it is monotonically non-decreasing and at
termination equals the number of passes), the loop terminates after at
most `MAX_LOOPS` Evaluate passes, and `loop_count` at termination is
`<= MAX_LOOPS`. -/
theorem workflow_loop_bounded (q : String) (ML : Int) (M : ℚ) (c m : Nat)
    (orc : StageOracles) (hML : 1 ≤ ML) :
    (∀ (o : EvalOutcome) (st : QueryState),
      (evaluator M o st).loop_count = st.loop_count + 1) ∧
    (∀ (i : Nat) (st : QueryState),
      (loopBody c m orc i st).loop_count = st.loop_count) ∧
    (run_workflow ML M c m orc q).1.loop_count =
      ((run_workflow ML M c m orc q).2 : Int) ∧
    ((run_workflow ML M c m orc q).2 : Int) ≤ ML ∧
    (run_workflow ML M c m orc q).1.loop_count ≤ ML ∧
    should_replan ML M (run_workflow ML M c m orc q).1 = "end" := by
  have h0 : (structured_summarizer orc.summarizerResp
      (initQueryState q)).loop_count = 0 := by
    cases horc : orc.summarizerResp <;>
      simp [structured_summarizer, horc, initQueryState]
  have hspec := runLoop_spec ML M c m orc ML.toNat 0
    (structured_summarizer orc.summarizerResp (initQueryState q))
    (by rw [h0, zero_add]; exact Int.self_le_toNat ML)
  have hML0 : ((ML.toNat : Int)) = ML := Int.toNat_of_nonneg (by omega)
  have h2 : ((runLoop ML M c m orc ML.toNat 0 (structured_summarizer
      orc.summarizerResp (initQueryState q))).2 : Int) ≤ ML := by
    have h21 := hspec.2.1
    omega
  simp only [run_workflow]
  refine ⟨evaluator_loop_count M, loopBody_loop_count c m orc, ?_, h2, ?_, hspec.2.2⟩
  · rw [hspec.1, h0, zero_add]
  · rw [hspec.1, h0, zero_add]
    exact h2

/-- Concrete instantiation of the C2 theorem: three loops allowed, a
first-pass success. -/
theorem workflow_loop_bounded_witness :
    ((1 : Int) ≤ 3 ∧
      ((run_workflow 3 (7/10) 3 10 sampleOracles "q").2 : Int) ≤ 3 ∧
      (run_workflow 3 (7/10) 3 10 sampleOracles "q").1.loop_count ≤ 3 ∧
      should_replan 3 (7/10) (run_workflow 3 (7/10) 3 10 sampleOracles "q").1 =
        "end") := by
  refine ⟨by decide, ?_, ?_, ?_⟩
  · exact (workflow_loop_bounded "q" 3 (7/10) 3 10 sampleOracles
      (by decide)).2.2.2.1
  · exact (workflow_loop_bounded "q" 3 (7/10) 3 10 sampleOracles
      (by decide)).2.2.2.2.1
  · exact (workflow_loop_bounded "q" 3 (7/10) 3 10 sampleOracles
      (by decide)).2.2.2.2.2

theorem find?_updateEntries [DecidableEq K] (key : K) (v : V) (exp : Expiry) :
    ∀ l : List (K × V × Expiry),
      (updateEntries l key v exp).find? (fun e => decide (e.1 = key)) =
        some (key, v, exp) := by
  intro l
  unfold updateEntries
  by_cases h : hasKey l key = true
  · rw [if_pos h]
    induction l with
    | nil => simp [hasKey] at h
    | cons e rest ih =>
      by_cases he : e.1 = key
      · rw [List.map_cons, if_pos he, List.find?_cons_of_pos _ (by simp)]
      · have h' : hasKey rest key = true := by
          simp only [hasKey, List.any_cons, Bool.or_eq_true,
            decide_eq_true_eq] at h ⊢
          tauto
        rw [List.map_cons, if_neg he,
          List.find?_cons_of_neg _ (by simp [he]), ih h']
  · rw [if_neg h]
    rw [Bool.not_eq_true] at h
    induction l with
    | nil => simp [List.find?]
    | cons e rest ih =>
      have he : ¬ (e.1 = key) := by
        simp only [hasKey, List.any_cons, Bool.or_eq_false_iff,
          decide_eq_false_iff_not] at h
        exact h.1
      have h' : hasKey rest key = false := by
        simp only [hasKey, List.any_cons, Bool.or_eq_false_iff] at h
        exact h.2
      rw [List.cons_append, List.find?_cons_of_neg _ (by simp [he]), ih h']

theorem evictOldest_default_ttl [DecidableEq K] (c : MemoryCache K V) :
    c.evictOldest.default_ttl = c.default_ttl := by
  unfold MemoryCache.evictOldest
  split <;> rfl

theorem evictOldest_entries_sublist [DecidableEq K] (c : MemoryCache K V) :
    c.evictOldest.entries.Sublist c.entries := by
  unfold MemoryCache.evictOldest
  split
  · exact List.Sublist.refl _
  · next e rest heq =>
    rw [heq]
    exact List.eraseP_sublist _

theorem putCore_default_ttl [DecidableEq K] (now : Int) (key : K)
    (c : MemoryCache K V) :
    (putCore now key c).default_ttl = c.default_ttl := by
  simp only [putCore]
  split
  · rw [evictOldest_default_ttl]
    rfl
  · rfl

theorem putCore_entries_sublist [DecidableEq K] (now : Int) (key : K)
    (c : MemoryCache K V) :
    (putCore now key c).entries.Sublist c.entries := by
  have hclean : (c.cleanupExpired now).entries.Sublist c.entries :=
    List.filter_sublist _
  simp only [putCore]
  split
  · exact (evictOldest_entries_sublist _).trans hclean
  · exact hclean

theorem put_entries_def [DecidableEq K] (now : Int) (key : K) (v : V)
    (ttl : Option Int) (c : MemoryCache K V) :
    (c.put now key v ttl).entries =
      updateEntries (putCore now key c).entries key v
        (putExpiry now ttl (putCore now key c).default_ttl) := rfl

theorem put_find? [DecidableEq K] (now : Int) (key : K) (v : V)
    (ttl : Option Int) (c : MemoryCache K V) :
    (c.put now key v ttl).entries.find? (fun e => decide (e.1 = key)) =
      some (key, v, putExpiry now ttl c.default_ttl) := by
  rw [put_entries_def, putCore_default_ttl]
  exact find?_updateEntries key v (putExpiry now ttl c.default_ttl) _

theorem get_fst_of_find? [DecidableEq K] (t : Int) (k : K)
    (c : MemoryCache K V) (v : V) (exp : Expiry)
    (hf : c.entries.find? (fun e => decide (e.1 = k)) = some (k, v, exp)) :
    (c.get t k).1 = if exp.activeAt t then some v else none := by
  simp only [MemoryCache.get, hf]
  split <;> rfl

/-- C6 counterexample: on a cache whose default ttl is 0, `put` with no
ttl argument stores expiration = insertion instant (because Python's
`ttl != 0` is true for `ttl=None`), so a later `get` misses instead of
returning the value — the entry is not unbounded. -/
theorem cache_zero_default_ttl_counterexample :
    zeroTtlCache.default_ttl = 0 ∧
    ((zeroTtlCache.put 0 "k" 7 none).get 1 "k").1 = none := by
  constructor
  · rfl
  · rfl

/-- C6 as amended: an entry is unbounded (survives every later `get`)
exactly when the put call passes `ttl=0` explicitly; a `put` with no
ttl argument on a cache whose default ttl is 0 instead stores
`expiration = now`, which every `get` at or after `now` treats as
already expired. -/
theorem cache_ttl_zero_unbounded [DecidableEq K] (c : MemoryCache K V)
    (k : K) (v : V) (now : Int) :
    (∀ t, ((c.put now k v (some 0)).get t k).1 = some v) ∧
    (c.default_ttl = 0 → ∀ t, now ≤ t →
      ((c.put now k v none).get t k).1 = none) := by
  constructor
  · intro t
    have hf := put_find? now k v (some 0) c
    have hexp : putExpiry now (some 0) c.default_ttl = .inf := by
      simp [putExpiry]
    rw [hexp] at hf
    rw [get_fst_of_find? t k _ v .inf hf]
    rfl
  · intro hd t ht
    have hf := put_find? now k v none c
    have hexp : putExpiry now none c.default_ttl = .fin now := by
      simp [putExpiry, hd]
    rw [hexp] at hf
    rw [get_fst_of_find? t k _ v (.fin now) hf]
    simp [Expiry.activeAt]
    omega

/-- Concrete instantiation of the amended C6 theorem. -/
theorem cache_ttl_zero_unbounded_witness :
    (((zeroTtlCache.put 0 "k" 7 (some 0)).get 5 "k").1 = some 7 ∧
      zeroTtlCache.default_ttl = 0 ∧ (0 : Int) ≤ 5 ∧
      ((zeroTtlCache.put 0 "k" 7 none).get 5 "k").1 = none) := by
  refine ⟨(cache_ttl_zero_unbounded zeroTtlCache "k" 7 0).1 5, rfl, by decide, ?_⟩
  exact (cache_ttl_zero_unbounded zeroTtlCache "k" 7 0).2 rfl 5 (by decide)

theorem keys_map_update [DecidableEq K] (key : K) (v : V) (exp : Expiry) :
    ∀ l : List (K × V × Expiry),
      ((l.map fun e => if e.1 = key then (key, v, exp) else e).map
        fun e => e.1) = l.map fun e => e.1 := by
  intro l
  induction l with
  | nil => rfl
  | cons e rest ih =>
    by_cases he : e.1 = key
    · simp [ih, he]
    · simp [ih, he]

theorem nodup_keys_put [DecidableEq K] (now : Int) (key : K) (v : V)
    (ttl : Option Int) (c : MemoryCache K V)
    (h : (c.entries.map fun e => e.1).Nodup) :
    ((c.put now key v ttl).entries.map fun e => e.1).Nodup := by
  have h2 : (((putCore now key c).entries.map fun e => e.1)).Nodup :=
    h.sublist ((putCore_entries_sublist now key c).map _)
  rw [put_entries_def]
  unfold updateEntries
  by_cases hk : hasKey (putCore now key c).entries key = true
  · rw [if_pos hk, keys_map_update]
    exact h2
  · rw [if_neg hk, List.map_append]
    have hkn : key ∉ ((putCore now key c).entries.map fun e => e.1) := by
      intro hmem
      rcases List.mem_map.mp hmem with ⟨e, he, hek⟩
      exact hk (by
        simp only [hasKey, List.any_eq_true]
        exact ⟨e, he, by simp [hek]⟩)
    simp only [List.nodup_append, List.map_cons, List.map_nil]
    refine ⟨h2, List.nodup_singleton key, ?_⟩
    intro a ha hb
    simp only [List.mem_singleton] at hb
    subst hb
    exact hkn ha

theorem find?_eraseP_key [DecidableEq K] (k : K) :
    ∀ l : List (K × V × Expiry), (l.map fun e => e.1).Nodup →
      ((l.eraseP fun e => decide (e.1 = k)).find?
        fun e => decide (e.1 = k)) = none := by
  intro l
  induction l with
  | nil => intro _; rfl
  | cons e rest ih =>
    intro hnd
    by_cases he : e.1 = k
    · rw [List.eraseP_cons_of_pos (by simp [he])]
      have hnk : e.1 ∉ rest.map (fun x => x.1) := (List.nodup_cons.mp hnd).1
      refine List.find?_eq_none.mpr (fun x hx => ?_)
      simp only [decide_eq_true_eq]
      intro hxk
      exact hnk (by rw [he, ← hxk]; exact List.mem_map_of_mem _ hx)
    · rw [List.eraseP_cons_of_neg (by simp [he]),
        List.find?_cons_of_neg _ (by simp [he])]
      exact ih (List.nodup_cons.mp hnd).2

theorem get_expired_result [DecidableEq K] (t : Int) (k : K)
    (c : MemoryCache K V) (v : V) (exp : Expiry)
    (hf : c.entries.find? (fun e => decide (e.1 = k)) = some (k, v, exp))
    (hexp : exp.activeAt t = false) :
    c.get t k = (none,
      { c with
        entries := c.entries.eraseP fun e => decide (e.1 = k)
        size := (c.entries.eraseP fun e => decide (e.1 = k)).length
        misses := c.misses + 1 }) := by
  simp only [MemoryCache.get, hf, hexp]
  rfl

/-- C8: after `put(k, v, ttl)` with `ttl > 0`, `get(k)` strictly before
the expiration instant `now + ttl` returns `v`; `get(k)` at or after it
returns absent, removes the entry as a side effect and counts a miss;
and every subsequent `contains(k)` is false. -/
theorem cache_put_get_ttl_expiry [DecidableEq K] (c : MemoryCache K V)
    (k : K) (v : V) (ttl now : Int)
    (hnodup : (c.entries.map fun e => e.1).Nodup) (httl : 0 < ttl) :
    (∀ t, t < now + ttl → ((c.put now k v (some ttl)).get t k).1 = some v) ∧
    (∀ t, now + ttl ≤ t →
      ((c.put now k v (some ttl)).get t k).1 = none ∧
      ((c.put now k v (some ttl)).get t k).2.misses =
        (c.put now k v (some ttl)).misses + 1 ∧
      ∀ u, ((c.put now k v (some ttl)).get t k).2.contains u k = false) := by
  have hne : (some ttl : Option Int) ≠ some 0 := by
    intro hcon
    rw [Option.some_inj] at hcon
    omega
  have hexp : putExpiry now (some ttl) c.default_ttl = .fin (now + ttl) := by
    rw [putExpiry, if_pos hne]
    rfl
  have hf := put_find? now k v (some ttl) c
  rw [hexp] at hf
  constructor
  · intro t ht
    rw [get_fst_of_find? t k _ v (.fin (now + ttl)) hf]
    rw [if_pos (by simp [Expiry.activeAt]; omega)]
  · intro t ht
    have hact : Expiry.activeAt (.fin (now + ttl)) t = false := by
      simp [Expiry.activeAt]
      omega
    have hres := get_expired_result t k (c.put now k v (some ttl)) v
      (.fin (now + ttl)) hf hact
    rw [hres]
    refine ⟨rfl, rfl, ?_⟩
    intro u
    show MemoryCache.contains u k _ = false
    unfold MemoryCache.contains
    rw [find?_eraseP_key k _ (nodup_keys_put now k v (some ttl) c hnodup)]

/-- Concrete instantiation of the C8 theorem. -/
theorem cache_put_get_ttl_expiry_witness :
    ((((zeroTtlCache.put 0 "k" 7 (some 1)).get 0 "k").1 = some 7) ∧
      (((zeroTtlCache.put 0 "k" 7 (some 1)).get 1 "k").1 = none) ∧
      ((zeroTtlCache.put 0 "k" 7 (some 1)).get 1 "k").2.contains 2 "k" =
        false) := by
  have hmain := cache_put_get_ttl_expiry zeroTtlCache "k" 7 1 0
    (by simp [zeroTtlCache]) (by decide)
  refine ⟨hmain.1 0 (by decide), (hmain.2 1 (by decide)).1, ?_⟩
  exact (hmain.2 1 (by decide)).2.2 2

theorem Expiry.blt_irrefl (a : Expiry) : Expiry.blt a a = false := by
  cases a <;> simp [Expiry.blt]

theorem Expiry.blt_trans_false (a b c : Expiry)
    (h1 : Expiry.blt a b = false) (h2 : Expiry.blt c a = false) :
    Expiry.blt c b = false := by
  cases a <;> cases b <;> cases c <;> simp [Expiry.blt] at *
  all_goals omega

theorem Expiry.blt_true_false (a b c : Expiry)
    (h1 : Expiry.blt a b = true) (h2 : Expiry.blt a c = false) :
    Expiry.blt b c = false := by
  cases a <;> cases b <;> cases c <;> simp [Expiry.blt] at *
  all_goals omega

theorem minExpEntry_cases :
    ∀ (rest : List (K × V × Expiry)) (e),
      minExpEntry e rest = e ∨ minExpEntry e rest ∈ rest := by
  intro rest
  induction rest with
  | nil => intro e; exact Or.inl rfl
  | cons y ys ih =>
    intro e
    have hmin : minExpEntry e (y :: ys) =
        minExpEntry (if y.2.2.blt e.2.2 then y else e) ys := rfl
    by_cases hb : y.2.2.blt e.2.2 = true
    · rcases ih (if y.2.2.blt e.2.2 then y else e) with h | h
      · right
        rw [hmin, h, if_pos hb]
        exact List.mem_cons_self y ys
      · right
        rw [hmin]
        exact List.mem_cons_of_mem y h
    · rcases ih (if y.2.2.blt e.2.2 then y else e) with h | h
      · left
        rw [hmin, h, if_neg hb]
      · right
        rw [hmin]
        exact List.mem_cons_of_mem y h

theorem minExpEntry_min :
    ∀ (rest : List (K × V × Expiry)) (e x), (x = e ∨ x ∈ rest) →
      Expiry.blt x.2.2 (minExpEntry e rest).2.2 = false := by
  intro rest
  induction rest with
  | nil =>
    intro e x hx
    rcases hx with rfl | h
    · exact Expiry.blt_irrefl x.2.2
    · cases h
  | cons y ys ih =>
    intro e x hx
    show Expiry.blt x.2.2
      (minExpEntry (if y.2.2.blt e.2.2 then y else e) ys).2.2 = false
    by_cases hb : y.2.2.blt e.2.2 = true
    · rw [if_pos hb]
      rcases hx with heq | hmem
      · rw [heq]
        exact Expiry.blt_true_false y.2.2 e.2.2 _ hb (ih y y (Or.inl rfl))
      · rcases List.mem_cons.mp hmem with heq | hmem2
        · rw [heq]
          exact ih y y (Or.inl rfl)
        · exact ih y x (Or.inr hmem2)
    · rw [if_neg hb]
      rcases hx with heq | hmem
      · rw [heq]
        exact ih e e (Or.inl rfl)
      · rcases List.mem_cons.mp hmem with heq | hmem2
        · rw [heq]
          exact Expiry.blt_trans_false e.2.2 _ y.2.2 (ih e e (Or.inl rfl))
            ((Bool.not_eq_true _).mp hb)
        · exact ih e x (Or.inr hmem2)

theorem evictOldest_spec [DecidableEq K] (c : MemoryCache K V)
    (e : K × V × Expiry) (rest : List (K × V × Expiry))
    (h : c.entries = e :: rest) :
    c.evictOldest.entries = (e :: rest).eraseP
      (fun x => decide (x.1 = (minExpEntry e rest).1)) ∧
    c.evictOldest.evictions = c.evictions + 1 ∧
    c.evictOldest.max_size = c.max_size ∧
    c.evictOldest.default_ttl = c.default_ttl := by
  unfold MemoryCache.evictOldest
  rw [h]
  exact ⟨rfl, rfl, rfl, rfl⟩

theorem hasKey_false_iff [DecidableEq K] (l : List (K × V × Expiry))
    (key : K) : hasKey l key = false ↔ ∀ e ∈ l, e.1 ≠ key := by
  simp [hasKey]

/-- C7 counterexample: a cache "holding `max_size` entries" with
`max_size = 0` (empty, nothing expired — vacuously).  `put` of a new
key evicts nothing (`_evict_oldest` returns early on an empty dict), so
the eviction counter is unchanged and the size ends at 1, not
`max_size`. -/
theorem cache_capacity_eviction_counterexample :
    zeroCapCache.entries.length = zeroCapCache.max_size ∧
    (∀ e ∈ zeroCapCache.entries, e.2.2.activeAt 0 = true) ∧
    hasKey zeroCapCache.entries "k" = false ∧
    (zeroCapCache.put 0 "k" 1 none).evictions = zeroCapCache.evictions ∧
    ¬ ((zeroCapCache.put 0 "k" 1 none).entries.length =
        zeroCapCache.max_size) := by
  refine ⟨rfl, ?_, rfl, rfl, by decide⟩
  intro e he
  simp [zeroCapCache] at he

/-- C7 as amended: on a cache with `max_size >= 1` holding `max_size`
entries none of which is expired, `put` of a new key deletes exactly
the entry with the smallest expiration (first such, in insertion
order), counts exactly one eviction, and leaves the size at
`max_size`; a `put` of an already-present key evicts nothing. -/
theorem cache_capacity_eviction [DecidableEq K] (c : MemoryCache K V)
    (k : K) (v : V) (ttl : Option Int) (now : Int)
    (hfull : c.entries.length = c.max_size)
    (hpos : 1 ≤ c.max_size)
    (hactive : ∀ e ∈ c.entries, e.2.2.activeAt now = true) :
    (hasKey c.entries k = false →
      (c.put now k v ttl).entries.length = c.max_size ∧
      (c.put now k v ttl).evictions = c.evictions + 1 ∧
      ∃ e₀ ∈ c.entries, (∀ e ∈ c.entries, Expiry.blt e.2.2 e₀.2.2 = false) ∧
        (c.put now k v ttl).entries =
          (c.entries.eraseP fun x => decide (x.1 = e₀.1)) ++
            [(k, v, putExpiry now ttl c.default_ttl)]) ∧
    (hasKey c.entries k = true →
      (c.put now k v ttl).entries.length = c.max_size ∧
      (c.put now k v ttl).evictions = c.evictions) := by
  have hce : (c.cleanupExpired now).entries = c.entries := by
    show c.entries.filter _ = c.entries
    exact List.filter_eq_self.mpr hactive
  have hcev : (c.cleanupExpired now).evictions = c.evictions := by
    show c.evictions + c.entries.countP _ = c.evictions
    rw [List.countP_eq_zero.mpr ?_, Nat.add_zero]
    intro e he
    simp [hactive e he]
  obtain ⟨e, rest, hcons⟩ : ∃ e rest, c.entries = e :: rest := by
    cases hents : c.entries with
    | nil =>
      rw [hents] at hfull
      simp at hfull
      omega
    | cons e rest => exact ⟨e, rest, rfl⟩
  constructor
  · intro hnk
    have hcond : (c.cleanupExpired now).entries.length ≥
        (c.cleanupExpired now).max_size ∧
        hasKey (c.cleanupExpired now).entries k = false := by
      rw [hce]
      refine ⟨?_, hnk⟩
      show c.entries.length ≥ c.max_size
      omega
    have hes := evictOldest_spec (c.cleanupExpired now) e rest
      (by rw [hce, hcons])
    have holdmem : minExpEntry e rest ∈ c.entries := by
      rw [hcons]
      rcases minExpEntry_cases rest e with h | h
      · rw [h]; exact List.mem_cons_self e rest
      · exact List.mem_cons_of_mem e h
    have holdmem2 : minExpEntry e rest ∈ e :: rest := by
      rw [← hcons]
      exact holdmem
    have hlenerase : ((e :: rest).eraseP
        (fun x => decide (x.1 = (minExpEntry e rest).1))).length =
        (e :: rest).length - 1 :=
      List.length_eraseP_of_mem holdmem2 (by simp)
    have hkerase : hasKey ((e :: rest).eraseP
        (fun x => decide (x.1 = (minExpEntry e rest).1))) k = false := by
      rw [hasKey_false_iff]
      intro x hx
      have hx2 : x ∈ c.entries := by
        rw [hcons]
        exact (List.eraseP_sublist _).subset hx
      exact (hasKey_false_iff c.entries k).mp hnk x hx2
    have hc2 : putCore now k c = (c.cleanupExpired now).evictOldest := by
      simp only [putCore]
      rw [if_pos hcond]
    have hput_entries : (c.put now k v ttl).entries =
        updateEntries ((c.cleanupExpired now).evictOldest).entries k v
          (putExpiry now ttl
            ((c.cleanupExpired now).evictOldest).default_ttl) := by
      rw [put_entries_def, hc2]
    have hput_ev : (c.put now k v ttl).evictions =
        ((c.cleanupExpired now).evictOldest).evictions := by
      show (putCore now k c).evictions = _
      rw [hc2]
    have hupd : updateEntries ((c.cleanupExpired now).evictOldest).entries k v
        (putExpiry now ttl ((c.cleanupExpired now).evictOldest).default_ttl) =
        ((e :: rest).eraseP
          (fun x => decide (x.1 = (minExpEntry e rest).1))) ++
          [(k, v, putExpiry now ttl c.default_ttl)] := by
      unfold updateEntries
      rw [hes.1, hes.2.2.2, if_neg (by simp [hkerase])]
      rfl
    refine ⟨?_, ?_, ?_⟩
    · rw [hput_entries, hupd, List.length_append, hlenerase]
      rw [hcons] at hfull
      simp at hfull ⊢
      omega
    · rw [hput_ev, hes.2.1, hcev]
    · refine ⟨minExpEntry e rest, holdmem, ?_, ?_⟩
      · intro x hx
        rw [hcons] at hx
        exact minExpEntry_min rest e x (by
          rcases List.mem_cons.mp hx with h | h
          · exact Or.inl h
          · exact Or.inr h)
      · rw [hput_entries, hupd, hcons]
  · intro hk
    have hcondF : ¬ ((c.cleanupExpired now).entries.length ≥
        (c.cleanupExpired now).max_size ∧
        hasKey (c.cleanupExpired now).entries k = false) := by
      rw [hce]
      intro hcon
      rw [hk] at hcon
      exact absurd hcon.2 (by simp)
    have hc2 : putCore now k c = c.cleanupExpired now := by
      simp only [putCore]
      rw [if_neg hcondF]
    have hput_entries : (c.put now k v ttl).entries =
        updateEntries (c.cleanupExpired now).entries k v
          (putExpiry now ttl (c.cleanupExpired now).default_ttl) := by
      rw [put_entries_def, hc2]
    have hput_ev : (c.put now k v ttl).evictions =
        (c.cleanupExpired now).evictions := by
      show (putCore now k c).evictions = _
      rw [hc2]
    have hkc : hasKey (c.cleanupExpired now).entries k = true := by
      rw [hce]; exact hk
    constructor
    · rw [hput_entries, updateEntries, if_pos hkc, List.length_map, hce,
        hfull]
    · rw [hput_ev, hcev]

/-- Concrete instantiation of the amended C7 theorem: at capacity 2 a
new key evicts the entry with the sooner expiration ("b"). -/
theorem cache_capacity_eviction_witness :
    (twoEntryCache.entries.length = twoEntryCache.max_size ∧
      1 ≤ twoEntryCache.max_size ∧
      hasKey twoEntryCache.entries "k" = false ∧
      (twoEntryCache.put 0 "k" 3 none).entries.length =
        twoEntryCache.max_size ∧
      (twoEntryCache.put 0 "k" 3 none).evictions =
        twoEntryCache.evictions + 1) := by
  have h := cache_capacity_eviction twoEntryCache "k" 3 none 0 rfl
    (by decide)
    (by
      intro e he
      simp only [twoEntryCache, List.mem_cons, List.not_mem_nil,
        or_false] at he
      rcases he with rfl | rfl <;> decide)
  exact ⟨rfl, by decide, rfl, (h.1 rfl).1, (h.1 rfl).2.1⟩

end ResearchSubsystem
